import Mathlib

/-!
Verification of the CloudCut in-browser video preview/compositing engine.

The development shallowly embeds the engine's pure computations and
event-handler state transitions over ℚ-valued time and geometry:

* `computeOutputSize` — the Geometry Resolver (crop/aspect normalization),
  from the `computeOutputSize` callback of the canvas-player hook.
* `effectStrengths` — the preview-vs-paused effect strength selection done
  per frame by `drawFrame` (sharpen / noise / grain caps).
* `PlayerState` with `pauseAt`, `scrub`, `handleSeeked`,
  `handleLoadedMetadata` — the Transport's forced-time reconciliation, from
  the canvas-player hook's callbacks and media-event handlers.
* `TickState`/`tick` — the trim-boundary watcher loop of `CanvasPreview`
  (`tick` + the one-shot `stopLockRef` + `triggerEndCue` scheduling).
* `sequenceWithTiming`, `sequenceDuration`, `getClipAtTime`,
  `handleSplitClip` — the Sequencer's derived-timing scan, global-time
  mapping and clip splitting from the editor application component.
* `ExportRun` transitions and the export progress formulas — the Export
  Capturer's progress reporting and exit-path cleanup from `exportCut`.

Machine floating-point numbers are modelled as exact rationals; the code's
numeric literals (0.01, 0.02, 0.25, 0.1, …) become the corresponding
rational constants.
-/

namespace CloudCut

/-- JavaScript `Math.round` for the nonnegative values used here:
round half up, as an integer. -/
def jsRound (x : ℚ) : ℤ := ⌊x + 1/2⌋

/-! ### Geometry Resolver (`computeOutputSize`) -/

/-- Crop geometry produced by `computeOutputSize`: rounded output canvas
size, source-crop origin and source-crop size. -/
structure CropGeometry where
  width : ℚ
  height : ℚ
  sx : ℚ
  sy : ℚ
  sWidth : ℚ
  sHeight : ℚ
deriving Repr, DecidableEq

/-- `computeOutputSize` from the canvas-player hook.  `none` models an
absent (`undefined`) `targetAspectRatio`; the JS guard
`!targetAspectRatio || targetAspectRatio <= 0` collapses to the `r ≤ 0`
test on `some r` (0 is both falsy and `≤ 0`). -/
def computeOutputSize (targetAspectRatio : Option ℚ)
    (sourceWidth sourceHeight : ℚ) : CropGeometry :=
  match targetAspectRatio with
  | none => ⟨sourceWidth, sourceHeight, 0, 0, sourceWidth, sourceHeight⟩
  | some r =>
    if r ≤ 0 then ⟨sourceWidth, sourceHeight, 0, 0, sourceWidth, sourceHeight⟩
    else
      let sourceRatio := sourceWidth / sourceHeight
      let cropWidth := if sourceRatio > r then sourceHeight * r else sourceWidth
      let cropHeight := if sourceRatio > r then sourceHeight else sourceWidth / r
      let sx := max 0 ((sourceWidth - cropWidth) / 2)
      let sy := max 0 ((sourceHeight - cropHeight) / 2)
      ⟨(jsRound cropWidth : ℤ), (jsRound cropHeight : ℤ), sx, sy, cropWidth, cropHeight⟩

/-! ### Effect Stack strength regimes (`drawFrame`) -/

/-- The per-frame sharpen/noise/grain strengths chosen by `drawFrame`:
`isPreview` (actively playing) uses the cheap sub-range caps, otherwise
the full-strength caps are used.  Mirrors
`sharpenStrength` / `noiseStrength` / `grainStrength` in `drawFrame`. -/
def effectStrengths (isPreview : Bool) (sharpenAmount noiseAmount grainAmount : ℚ) :
    ℚ × ℚ × ℚ :=
  if isPreview then
    (min sharpenAmount (1/5), noiseAmount * (2/25), grainAmount * (3/25))
  else
    (min sharpenAmount (3/5), noiseAmount * (1/5), grainAmount * (3/10))

/-! ### Transport state (`useCanvasPlayer` refs and handlers) -/

/-- The transport-relevant state of the canvas player: the published
`currentTime`, the one-writer `forcedTimeRef`, the media element's
position/paused flag and its (possibly not-yet-finite) duration. -/
structure PlayerState where
  isPlaying : Bool
  videoPaused : Bool
  /-- `video.duration`; `none` models a not-yet-finite duration
  (metadata not loaded). -/
  duration : Option ℚ
  currentTime : ℚ
  forcedTime : Option ℚ
  videoTime : ℚ
deriving Repr, DecidableEq

/-- `pauseAt(value)`: clamp to `[0, video.duration]` when the duration is
finite (otherwise only from below), set the forced time, pause, and
republish the clamped value.  `seekOk` tells whether the assignment
`video.currentTime = clamped` succeeded or threw (pre-metadata). -/
def pauseAt (seekOk : Bool) (value : ℚ) (s : PlayerState) : PlayerState :=
  let hi := match s.duration with
    | some d => d
    | none => value
  let clamped := max 0 (min value hi)
  { s with
    forcedTime := some clamped
    videoPaused := true
    isPlaying := false
    videoTime := if seekOk then clamped else s.videoTime
    currentTime := clamped }

/-- `scrub(value)`: clear the forced time, assign the media position (on a
throw, record the value as the forced time instead), and republish the
value; the play state is untouched. -/
def scrub (seekOk : Bool) (value : ℚ) (s : PlayerState) : PlayerState :=
  if seekOk then
    { s with forcedTime := none, videoTime := value, currentTime := value }
  else
    { s with forcedTime := some value, currentTime := value }

/-- The `seeked` media-event handler: `pos` is the media position the seek
landed on.  While a forced time is set it stays authoritative until the
actual position is within 0.02 s of it, at which point it clears. -/
def handleSeeked (pos : ℚ) (s : PlayerState) : PlayerState :=
  let s := { s with videoTime := pos }
  match s.forcedTime with
  | some forced =>
    if |pos - forced| ≤ 1/50 then
      { s with forcedTime := none, currentTime := pos }
    else
      { s with currentTime := forced }
  | none => { s with currentTime := pos }

/-- The `loadedmetadata` handler: publishes the new duration, consumes any
pending forced time as the initial position, seeks there and pauses. -/
def handleLoadedMetadata (videoDuration : Option ℚ) (s : PlayerState) : PlayerState :=
  let pending := s.forcedTime
  let initialTime := pending.getD 0
  { s with
    duration := videoDuration
    forcedTime := none
    currentTime := initialTime
    videoTime := initialTime
    videoPaused := true }

/-- Fold a list of `seeked` events (their landing positions) over a state. -/
def runSeeked (ps : List ℚ) (s : PlayerState) : PlayerState :=
  ps.foldl (fun st p => handleSeeked p st) s

/-- The resume branch of `togglePlayback` (taken when the video is paused
or ended): clear the forced time and start playback; on success
`isPlaying` becomes `true`, and the playing effect mirrors it into
`isPlayingRef` — the flag `drawFrame` reads as `isPreview`. -/
def togglePlaybackResume (s : PlayerState) : PlayerState :=
  { s with forcedTime := none, videoPaused := false, isPlaying := true }

/-- The playback commands at the start of `exportCut`'s capture: `scrub(0)`
followed by `togglePlayback()` on the paused video, so recording runs with
playback active. -/
def exportCaptureStart (seekOk : Bool) (s : PlayerState) : PlayerState :=
  togglePlaybackResume (scrub seekOk 0 s)

/-- The sharpen/noise/grain strengths `drawFrame` actually applies in a
given player state: `isPreview` is `isPlayingRef.current`, which mirrors
`isPlaying`. -/
def appliedStrengths (s : PlayerState) (sharpenAmount noiseAmount grainAmount : ℚ) :
    ℚ × ℚ × ℚ :=
  effectStrengths s.isPlaying sharpenAmount noiseAmount grainAmount

/-! ### Trim & Loop Controller (`CanvasPreview`'s `tick` loop) -/

/-- Static configuration of one run of the playhead-tick effect. -/
structure TickConfig where
  trimStart : ℚ
  trimEnd : ℚ
  isLooping : Bool
deriving Repr, DecidableEq

/-- Mutable state threaded through the `tick` animation-frame loop,
instrumented with the observable calls it makes: `pauseAtCalls` records
the arguments of every `pauseAt` invocation, `cueSignals` counts
boundary-reached signals (`triggerEndCue` requests), `scrubCalls` the
loop-to-start scrubs, and `displayTrace` every displayed time the loop
computed. `rafActive` is whether another animation frame is scheduled. -/
structure TickState where
  lastPlayhead : ℚ
  stopLock : Bool
  rafActive : Bool
  pauseAtCalls : List ℚ
  cueSignals : ℕ
  scrubCalls : List ℚ
  displayTrace : List ℚ
deriving Repr, DecidableEq

/-- The boundary epsilon of the tick loop (≈ 0.01 s). -/
def tickEpsilon : ℚ := 1/100

/-- The jitter filter at the top of `tick`: jumps larger than 0.25 s are
accepted, backward drift smaller than 0.02 s is kept at the old value,
anything else is forward progress. -/
def updatePlayhead (last actual : ℚ) : ℚ :=
  if |actual - last| > 1/4 then actual
  else if actual - last < -(1/50) then last
  else actual

/-- One `tick` of the playhead loop, driven by the media position
`actualTime` read at that frame.  A tick only runs while an animation
frame is scheduled; crossing the trim-out boundary with looping disabled
takes the one-shot branch (guarded by `stopLock`) and does not
reschedule. -/
def tick (cfg : TickConfig) (s : TickState) (actualTime : ℚ) : TickState :=
  if s.rafActive then
    let display := updatePlayhead s.lastPlayhead actualTime
    let s := { s with lastPlayhead := display, displayTrace := s.displayTrace ++ [display] }
    if cfg.trimEnd > 0 ∧ display ≥ cfg.trimEnd - tickEpsilon then
      if cfg.isLooping then
        { s with scrubCalls := s.scrubCalls ++ [cfg.trimStart], lastPlayhead := cfg.trimStart }
      else if s.stopLock then
        { s with rafActive := false }
      else
        { s with
          stopLock := true
          pauseAtCalls := s.pauseAtCalls ++ [cfg.trimEnd]
          lastPlayhead := cfg.trimEnd
          cueSignals := s.cueSignals + 1
          rafActive := false }
    else s
  else s

/-- The state set up by the playing branch of the playhead effect before
the first frame: the one-shot lock is cleared, the playhead is primed
from the media position `v0`, and a frame is scheduled. -/
def initialTickState (v0 : ℚ) : TickState :=
  ⟨v0, false, true, [], 0, [], []⟩

/-- Re-entering the playing branch of the effect on the next play: the
one-shot lock is cleared and the loop restarts from position `v0`. -/
def playStart (v0 : ℚ) (s : TickState) : TickState :=
  { s with stopLock := false, rafActive := true, lastPlayhead := v0 }

/-- Run the tick loop over a sequence of observed media positions. -/
def runTicks (cfg : TickConfig) (s : TickState) (ts : List ℚ) : TickState :=
  ts.foldl (tick cfg) s

/-! ### Sequencer (`sequenceWithTiming`, `getClipAtTime`, `handleSplitClip`) -/

/-- A timeline clip's identity and trim range (the other fields — asset
reference, label, color — do not enter the claims). -/
structure Clip where
  id : ℕ
  inPoint : ℚ
  outPoint : ℚ
deriving Repr, DecidableEq

/-- A clip with its derived sequence timing. -/
structure TimedClip where
  clip : Clip
  start : ℚ
  duration : ℚ
deriving Repr, DecidableEq

/-- The clip duration used by the cumulative scan:
`Math.max(0, outPoint - inPoint)`. -/
def clipDur (c : Clip) : ℚ := max 0 (c.outPoint - c.inPoint)

/-- The left-to-right cumulative scan of `sequenceWithTiming`, with the
running cursor made explicit. -/
def withTiming (cursor : ℚ) : List Clip → List TimedClip
  | [] => []
  | c :: rest => ⟨c, cursor, clipDur c⟩ :: withTiming (cursor + clipDur c) rest

/-- `sequenceWithTiming`: derived start/duration for each clip, scanning
from cursor 0. -/
def sequenceWithTiming (cs : List Clip) : List TimedClip :=
  withTiming 0 cs

/-- `sequenceDuration`: the reduce over derived durations. -/
def sequenceDuration (cs : List Clip) : ℚ :=
  (sequenceWithTiming cs).foldl (fun total c => total + c.duration) 0

/-- The containment test of `getClipAtTime`'s `find` callback. -/
def containsTime (safeTime : ℚ) (c : TimedClip) : Bool :=
  decide (safeTime ≥ c.start) && decide (safeTime < c.start + c.duration)

/-- `getClipAtTime(time)`: `null` on an empty sequence, otherwise the
first clip whose `[start, start + duration)` window contains
`max 0 time`, falling back to the last clip. -/
def getClipAtTime (cs : List Clip) (time : ℚ) : Option TimedClip :=
  let timed := sequenceWithTiming cs
  if timed.isEmpty then none
  else
    let safeTime := max 0 time
    (timed.find? (containsTime safeTime)).orElse fun _ => timed.getLast?

/-- The index of the clip `getClipAtTime` maps `time` to (for a non-empty
sequence): the index found by the scan, or the last index on fallback. -/
def clipIndexAtTime (cs : List Clip) (time : ℚ) : ℕ :=
  let timed := sequenceWithTiming cs
  let safeTime := max 0 time
  let k := timed.findIdx (containsTime safeTime)
  if k < timed.length then k else timed.length - 1

/-- `handleSplitClip`: split the clip under the timeline playhead at the
interior offset, replacing it in place by two clips partitioned at the
split point; a no-op within 0.1 s of either clip edge.  `freshId1` and
`freshId2` stand for the two generated clip ids. -/
def handleSplitClip (freshId1 freshId2 : ℕ) (cs : List Clip) (timelineTime : ℚ) :
    List Clip :=
  if (sequenceWithTiming cs).isEmpty then cs
  else
    match getClipAtTime cs timelineTime with
    | none => cs
    | some target =>
      if target.duration = 0 then cs
      else
        let offset := timelineTime - target.start
        if offset ≤ 1/10 ∨ offset ≥ target.duration - 1/10 then cs
        else
          let splitPoint := target.clip.inPoint + offset
          let first : Clip := { target.clip with id := freshId1, outPoint := splitPoint }
          let second : Clip := { target.clip with id := freshId2, inPoint := splitPoint }
          match cs.findIdx? (fun c => c.id == target.clip.id) with
          | none => cs
          | some index => cs.take index ++ [first, second] ++ cs.drop (index + 1)

/-! ### Export Capturer (`exportCut` in `CanvasPreview`) -/

/-- Export pipeline status. -/
inductive ExportStatus
  | idle
  | exporting
  | done
  | error
deriving Repr, DecidableEq

/-- The export state published to observers. -/
structure ExportState where
  status : ExportStatus
  progress : ℤ
  message : Option String
deriving Repr, DecidableEq

/-- Play/pause state and position of the media element, as the export
pipeline sees and restores it. -/
structure PlaybackSnapshot where
  position : ℚ
  playing : Bool
deriving Repr, DecidableEq

/-- One in-flight export run: the published state, the media playback it
drives, and the remembered pre-export resume point. -/
structure ExportRun where
  state : ExportState
  playback : PlaybackSnapshot
  resumeTime : ℚ
  wasPlaying : Bool
deriving Repr, DecidableEq

/-- Render-phase progress from the export `timeupdate` handler:
`Math.min(70, Math.round((video.currentTime / duration) * 70))`. -/
def renderProgress (duration t : ℚ) : ℤ :=
  min 70 (jsRound (t / duration * 70))

/-- Upload-phase progress from the `xhr.upload.onprogress` handler:
`70 + Math.round((event.loaded / event.total) * 30)`. -/
def uploadProgress (total loaded : ℚ) : ℤ :=
  70 + jsRound (loaded / total * 30)

/-- The full sequence of progress values published during one successful
export run: the initial 0, the render-phase updates for the observed
media times, the fixed 70 at upload start, the upload-phase updates for
the observed byte counts, and the final 100 of `done`. -/
def exportProgressTrace (duration total : ℚ) (times loads : List ℚ) : List ℤ :=
  (0 :: times.map (renderProgress duration)) ++
    (70 :: (loads.map (uploadProgress total) ++ [100]))

/-- Beginning of `exportCut`: remember the resume point, publish
`exporting`/0, seek to 0 and start playback over the export range. -/
def startExport (playback : PlaybackSnapshot) : ExportRun :=
  { state := ⟨.exporting, 0, some "Rendering"⟩
    playback := ⟨0, true⟩
    resumeTime := playback.position
    wasPlaying := playback.playing }

/-- The media clock advancing while the recorder captures: only the
playback position changes. -/
def mediaAdvance (pos : ℚ) (r : ExportRun) : ExportRun :=
  { r with playback := { r.playback with position := pos } }

/-- `recorder.onerror`: publish `error` with a message; nothing else. -/
def onRecorderError (r : ExportRun) : ExportRun :=
  { r with state := ⟨.error, 0, some "Export failed. Please try again."⟩ }

/-- The `finally` block of `handleStop`: `scrub(resumeTime)` and, when
playback was active before the export, resume playing. -/
def restorePlayback (r : ExportRun) : ExportRun :=
  { r with playback := ⟨r.resumeTime, r.wasPlaying⟩ }

/-- `handleStop` when signing or upload failed: publish `error` with the
failure message, then (in `finally`) restore playback. -/
def handleStopFailure (msg : String) (r : ExportRun) : ExportRun :=
  restorePlayback { r with state := ⟨.error, 0, some msg⟩ }

/-- `handleStop` on upload success: publish `done`/100 (no message), then
(in `finally`) restore playback. -/
def handleStopSuccess (r : ExportRun) : ExportRun :=
  restorePlayback { r with state := ⟨.done, 100, none⟩ }

/-- The deferred reset 1.5 s after `done`: publish `idle`/0. -/
def exportDisplayReset (r : ExportRun) : ExportRun :=
  { r with state := ⟨.idle, 0, none⟩ }

/-! ## Helper lemmas -/

/-- A `seeked` event that has not yet converged to the forced time leaves
the forced time authoritative and the published time unchanged. -/
lemma handleSeeked_not_converged (t p : ℚ) (s : PlayerState)
    (hf : s.forcedTime = some t) (hp : ¬ |p - t| ≤ 1/50) :
    (handleSeeked p s).forcedTime = some t ∧
      (handleSeeked p s).currentTime = t := by
  have hp' : ¬ |p - t| ≤ (50:ℚ)⁻¹ := by rwa [← one_div]
  simp [handleSeeked, hf, hp']

/-- Folding any number of non-converged `seeked` events keeps the forced
time authoritative. -/
lemma runSeeked_not_converged (t : ℚ) (ps : List ℚ)
    (hps : ∀ p ∈ ps, ¬ |p - t| ≤ 1/50) (s : PlayerState)
    (hf : s.forcedTime = some t) (hc : s.currentTime = t) :
    (runSeeked ps s).forcedTime = some t ∧
      (runSeeked ps s).currentTime = t := by
  induction ps generalizing s with
  | nil => exact ⟨hf, hc⟩
  | cons p ps ih =>
    have hp := hps p (List.mem_cons_self p ps)
    have step := handleSeeked_not_converged t p s hf hp
    exact ih (fun q hq => hps q (List.mem_cons_of_mem p hq))
      (handleSeeked p s) step.1 step.2

/-- A clip's scan duration is never negative. -/
lemma clipDur_nonneg (c : Clip) : 0 ≤ clipDur c := le_max_left 0 _

/-- When the trim range is ordered, the scan duration is the trim length. -/
lemma clipDur_of_le (c : Clip) (h : c.inPoint ≤ c.outPoint) :
    clipDur c = c.outPoint - c.inPoint :=
  max_eq_right (sub_nonneg.mpr h)

/-- The cumulative scan preserves the clip count. -/
lemma withTiming_length (u : ℚ) (cs : List Clip) :
    (withTiming u cs).length = cs.length := by
  induction cs generalizing u with
  | nil => rfl
  | cons c rest ih => simp [withTiming, ih]

/-- The scan's derived durations are the clips' scan durations. -/
lemma withTiming_map_duration (u : ℚ) (cs : List Clip) :
    (withTiming u cs).map TimedClip.duration = cs.map clipDur := by
  induction cs generalizing u with
  | nil => rfl
  | cons c rest ih => simp [withTiming, ih]

/-- Element form of the cumulative scan: the `i`-th timed clip keeps the
`i`-th clip, starts at the cursor plus the durations of the earlier clips,
and lasts its own scan duration. -/
lemma withTiming_getElem? (u : ℚ) (cs : List Clip) (i : ℕ) :
    (withTiming u cs)[i]? =
      (cs[i]?).map fun c =>
        TimedClip.mk c (u + ((cs.take i).map clipDur).sum) (clipDur c) := by
  induction cs generalizing u i with
  | nil => simp [withTiming]
  | cons c rest ih =>
    cases i with
    | zero => simp [withTiming]
    | succ i =>
      simp only [withTiming, List.getElem?_cons_succ, ih (u + clipDur c) i,
        List.take_succ_cons, List.map_cons, List.sum_cons]
      cases rest[i]? with
      | none => rfl
      | some c' => simp [add_assoc]

/-- Folding `+ duration` from an accumulator adds the summed durations. -/
lemma foldl_add_duration (a : ℚ) (l : List TimedClip) :
    l.foldl (fun total c => total + c.duration) a =
      a + (l.map TimedClip.duration).sum := by
  induction l generalizing a with
  | nil => simp
  | cons c rest ih => simp [ih, add_assoc]

/-- `sequenceDuration` is the sum of the scan durations. -/
lemma sequenceDuration_eq_sum (cs : List Clip) :
    sequenceDuration cs = (cs.map clipDur).sum := by
  rw [sequenceDuration, foldl_add_duration, zero_add, sequenceWithTiming,
    withTiming_map_duration]

/-- Boolean containment unfolded. -/
lemma containsTime_iff (safe : ℚ) (tc : TimedClip) :
    containsTime safe tc = true ↔
      tc.start ≤ safe ∧ safe < tc.start + tc.duration := by
  simp [containsTime, ge_iff_le]

/-- A time below the total remaining duration is found by the scan's
containment search, and the found clip's window contains it. -/
lemma withTiming_find_some (safe u : ℚ) (cs : List Clip) (hlo : u ≤ safe)
    (hhi : safe < u + (cs.map clipDur).sum) :
    ∃ tc, (withTiming u cs).find? (containsTime safe) = some tc ∧
      tc.start ≤ safe ∧ safe < tc.start + tc.duration := by
  induction cs generalizing u with
  | nil =>
    simp only [List.map_nil, List.sum_nil, add_zero] at hhi
    exact absurd hlo (not_le.mpr hhi)
  | cons c rest ih =>
    by_cases hc : safe < u + clipDur c
    · refine ⟨⟨c, u, clipDur c⟩, ?_, hlo, hc⟩
      exact List.find?_cons_of_pos _ ((containsTime_iff safe _).mpr ⟨hlo, hc⟩)
    · push_neg at hc
      have hhead : ¬ containsTime safe (⟨c, u, clipDur c⟩ : TimedClip) = true := by
        rw [containsTime_iff]
        rintro ⟨-, hlt⟩
        exact absurd hlt (not_lt.mpr hc)
      have hstep : (withTiming u (c :: rest)).find? (containsTime safe) =
          (withTiming (u + clipDur c) rest).find? (containsTime safe) := by
        rw [withTiming]
        exact List.find?_cons_of_neg _ hhead
      rw [hstep]
      refine ih (u + clipDur c) hc ?_
      rw [List.map_cons, List.sum_cons, ← add_assoc] at hhi
      exact hhi

/-- A time at or past the total remaining duration is missed by every
window of the scan. -/
lemma withTiming_find_none (safe u : ℚ) (cs : List Clip)
    (hhi : u + (cs.map clipDur).sum ≤ safe) :
    (withTiming u cs).find? (containsTime safe) = none := by
  induction cs generalizing u with
  | nil => rfl
  | cons c rest ih =>
    rw [List.map_cons, List.sum_cons, ← add_assoc] at hhi
    have hrest : 0 ≤ (rest.map clipDur).sum := by
      refine List.sum_nonneg ?_
      intro x hx
      obtain ⟨c', -, rfl⟩ := List.mem_map.mp hx
      exact clipDur_nonneg c'
    have hhead : ¬ containsTime safe (⟨c, u, clipDur c⟩ : TimedClip) = true := by
      rw [containsTime_iff]
      rintro ⟨-, hlt⟩
      have : u + clipDur c ≤ safe := by linarith
      exact absurd hlt (not_lt.mpr this)
    rw [withTiming, List.find?_cons_of_neg _ hhead]
    exact ih (u + clipDur c) (by linarith)

/-- `find?` returns the element at `findIdx` when a match exists. -/
lemma find?_eq_getElem_of_findIdx_lt {α : Type} (l : List α) (p : α → Bool)
    (h : l.findIdx p < l.length) :
    l.find? p = some l[l.findIdx p] := by
  induction l with
  | nil => simp at h
  | cons x xs ih =>
    by_cases hx : p x
    · simp [List.find?_cons_of_pos _ hx, List.findIdx_cons, hx]
    · have hfi : (x :: xs).findIdx p = xs.findIdx p + 1 := by
        simp [List.findIdx_cons, hx]
      have hlt : xs.findIdx p < xs.length := by
        have := h
        rw [hfi] at this
        simpa using this
      rw [List.find?_cons_of_neg _ hx, ih hlt]
      simp [hfi]

/-- The summed scan durations are nonnegative. -/
lemma clipDur_sum_nonneg (l : List ℚ) (hnn : ∀ x ∈ l, 0 ≤ x) : 0 ≤ l.sum :=
  List.sum_nonneg hnn

/-- Prefix sums of a nonnegative list are monotone in the prefix length. -/
lemma take_sum_mono (l : List ℚ) (hnn : ∀ x ∈ l, 0 ≤ x) (i j : ℕ) (hij : i ≤ j) :
    (l.take i).sum ≤ (l.take j).sum := by
  have hsplit : l.take j = l.take i ++ (l.take j).drop i := by
    conv_lhs => rw [← List.take_append_drop i (l.take j)]
    rw [List.take_take, min_eq_left hij]
  rw [hsplit, List.sum_append]
  have hnn' : 0 ≤ ((l.take j).drop i).sum := by
    refine List.sum_nonneg ?_
    intro x hx
    exact hnn x (List.take_subset j l (List.drop_subset i (l.take j) hx))
  linarith

/-- The start of the `k`-th timed clip is the prefix sum of the scan
durations before it. -/
lemma sequence_start_eq (cs : List Clip) (k : ℕ) (hk : k < cs.length)
    (hk2 : k < (sequenceWithTiming cs).length) :
    ((sequenceWithTiming cs)[k]).start = ((cs.map clipDur).take k).sum := by
  have h? := withTiming_getElem? 0 cs k
  rw [List.getElem?_eq_getElem hk] at h?
  have hlen : k < (withTiming 0 cs).length := by
    rw [withTiming_length]; exact hk
  rw [List.getElem?_eq_getElem hlen] at h?
  have hval := Option.some.inj h?
  show ((withTiming 0 cs)[k]).start = _
  rw [hval]
  simp [List.map_take]

/-- Unfolded form of `getClipAtTime`. -/
lemma getClipAtTime_eq (cs : List Clip) (t : ℚ) :
    getClipAtTime cs t =
      if (sequenceWithTiming cs).isEmpty then none
      else ((sequenceWithTiming cs).find? (containsTime (max 0 t))).orElse
        fun _ => (sequenceWithTiming cs).getLast? := rfl

/-- Unfolded form of `clipIndexAtTime`. -/
lemma clipIndexAtTime_eq (cs : List Clip) (t : ℚ) :
    clipIndexAtTime cs t =
      if (sequenceWithTiming cs).findIdx (containsTime (max 0 t)) <
          (sequenceWithTiming cs).length then
        (sequenceWithTiming cs).findIdx (containsTime (max 0 t))
      else (sequenceWithTiming cs).length - 1 := rfl

/-- A non-empty clip list has a non-empty timed scan. -/
lemma sequenceWithTiming_ne_nil (cs : List Clip) (hne : cs ≠ []) :
    sequenceWithTiming cs ≠ [] := by
  cases cs with
  | nil => exact absurd rfl hne
  | cons c rest =>
    simp [sequenceWithTiming, withTiming]

/-- If some displayed time is below the sequence duration, the containment
search over the timed scan succeeds. -/
lemma findIdx_lt_of_lt_duration (cs : List Clip) (safe : ℚ) (h0 : 0 ≤ safe)
    (hlt : safe < (cs.map clipDur).sum) :
    (sequenceWithTiming cs).findIdx (containsTime safe) <
      (sequenceWithTiming cs).length := by
  obtain ⟨tc, hfind, -, -⟩ :=
    withTiming_find_some safe 0 cs h0 (by rw [zero_add]; exact hlt)
  refine List.findIdx_lt_length.mpr ⟨tc, ?_, ?_⟩
  · exact List.mem_of_find?_eq_some hfind
  · exact List.find?_some hfind

/-- Every clip of the timed scan comes from the clip list. -/
lemma mem_clip_of_mem_withTiming (u : ℚ) (cs : List Clip) (tc : TimedClip)
    (h : tc ∈ withTiming u cs) : tc.clip ∈ cs := by
  induction cs generalizing u with
  | nil => simp [withTiming] at h
  | cons c rest ih =>
    rw [withTiming] at h
    rcases List.mem_cons.mp h with h | h
    · rw [h]
      exact List.mem_cons_self c rest
    · exact List.mem_cons_of_mem c (ih (u + clipDur c) h)

/-- The clip `getClipAtTime` returns belongs to the clip list. -/
lemma getClipAtTime_some_clip_mem (cs : List Clip) (t : ℚ) (tc : TimedClip)
    (h : getClipAtTime cs t = some tc) : tc.clip ∈ cs := by
  rw [getClipAtTime_eq] at h
  by_cases he : (sequenceWithTiming cs).isEmpty
  · rw [if_pos he] at h
    exact Option.noConfusion h
  · rw [if_neg he] at h
    cases hf : (sequenceWithTiming cs).find? (containsTime (max 0 t)) with
    | some tc' =>
      rw [hf] at h
      have heq : tc' = tc := Option.some.inj h
      rw [← heq]
      exact mem_clip_of_mem_withTiming 0 cs tc' (List.mem_of_find?_eq_some hf)
    | none =>
      rw [hf] at h
      have hlast : (sequenceWithTiming cs).getLast? = some tc := h
      exact mem_clip_of_mem_withTiming 0 cs tc
        (List.mem_of_getLast?_eq_some hlast)

/-- With unique clip ids, the id search of `handleSplitClip` finds exactly
the position of the member clip. -/
lemma findIdx_id_of_nodup (cs : List Clip) (x : Clip)
    (hids : (cs.map Clip.id).Nodup) (hmem : x ∈ cs) :
    ∃ i : ℕ, ∃ hi : i < cs.length, cs[i] = x ∧
      cs.findIdx? (fun c => c.id == x.id) = some i := by
  induction cs with
  | nil => simp at hmem
  | cons c rest ih =>
    rcases List.mem_cons.mp hmem with rfl | hmem'
    · refine ⟨0, by simp, rfl, ?_⟩
      simp
    · rw [List.map_cons] at hids
      have hnodups := List.nodup_cons.mp hids
      have hcne : (c.id == x.id) = false := by
        refine beq_eq_false_iff_ne.mpr ?_
        intro he
        exact hnodups.1 (he ▸ List.mem_map.mpr ⟨x, hmem', rfl⟩)
      obtain ⟨i, hi, heq, hfind⟩ := ih hnodups.2 hmem'
      refine ⟨i + 1, by simpa using Nat.succ_lt_succ hi, by simpa using heq, ?_⟩
      rw [List.findIdx?_cons, if_neg (by simp [hcne]), List.findIdx?_succ, hfind]
      rfl

/-- Invariant of the tick loop in the non-looping trim-stop scenario:
before the boundary is reached, no `pauseAt` call and no cue signal and
a frame still scheduled and every displayed time strictly below the
boundary; once the one-shot lock is taken, exactly one `pauseAt(trimEnd)`
call, exactly one cue signal, and no frame rescheduled. -/
def TickInv (cfg : TickConfig) (s : TickState) : Prop :=
  (s.stopLock = false →
    s.pauseAtCalls = [] ∧ s.cueSignals = 0 ∧ s.rafActive = true ∧
      ∀ d ∈ s.displayTrace, d < cfg.trimEnd - tickEpsilon) ∧
  (s.stopLock = true →
    s.pauseAtCalls = [cfg.trimEnd] ∧ s.cueSignals = 1 ∧ s.rafActive = false)

/-- One tick preserves the trim-stop invariant. -/
lemma tick_preserves_inv (cfg : TickConfig) (hEnd : 0 < cfg.trimEnd)
    (hLoop : cfg.isLooping = false) (s : TickState) (a : ℚ)
    (hInv : TickInv cfg s) : TickInv cfg (tick cfg s a) := by
  by_cases hraf : s.rafActive = true
  · have hlock : s.stopLock = false := by
      rcases Bool.eq_false_or_eq_true s.stopLock with hl | hl
      · exact absurd hraf (by simp [(hInv.2 hl).2.2])
      · exact hl
    obtain ⟨hpause, hcue, -, htrace⟩ := hInv.1 hlock
    by_cases hb : cfg.trimEnd > 0 ∧
        updatePlayhead s.lastPlayhead a ≥ cfg.trimEnd - tickEpsilon
    · have htick : tick cfg s a =
          { s with
            lastPlayhead := cfg.trimEnd
            displayTrace := s.displayTrace ++ [updatePlayhead s.lastPlayhead a]
            stopLock := true
            pauseAtCalls := s.pauseAtCalls ++ [cfg.trimEnd]
            cueSignals := s.cueSignals + 1
            rafActive := false } := by
        simp [tick, hraf, hb, hLoop, hlock]
      rw [htick]
      constructor
      · intro hcontra; simp at hcontra
      · intro _
        exact ⟨by rw [hpause]; rfl, by rw [hcue], rfl⟩
    · have htick : tick cfg s a =
          { s with
            lastPlayhead := updatePlayhead s.lastPlayhead a
            displayTrace := s.displayTrace ++ [updatePlayhead s.lastPlayhead a] } := by
        simp only [tick, hraf, if_true]
        rw [if_neg hb]
      rw [htick]
      constructor
      · intro _
        refine ⟨hpause, hcue, hraf, ?_⟩
        intro d hd
        rcases List.mem_append.mp hd with hd | hd
        · exact htrace d hd
        · have hde : d = updatePlayhead s.lastPlayhead a := by
            simpa using hd

          have hnear : ¬ updatePlayhead s.lastPlayhead a ≥ cfg.trimEnd - tickEpsilon := by
            intro hge
            exact hb ⟨hEnd, hge⟩
          rw [hde]
          exact lt_of_not_ge hnear
      · intro hl
        exact absurd hl (by simp [hlock])
  · have htick : tick cfg s a = s := by
      simp [tick, hraf]
    rw [htick]
    exact hInv

/-- Running any sequence of ticks preserves the trim-stop invariant. -/
lemma runTicks_inv (cfg : TickConfig) (hEnd : 0 < cfg.trimEnd)
    (hLoop : cfg.isLooping = false) (ts : List ℚ) (s : TickState)
    (hInv : TickInv cfg s) : TickInv cfg (runTicks cfg s ts) := by
  induction ts generalizing s with
  | nil => exact hInv
  | cons a ts ih =>
    exact ih (tick cfg s a) (tick_preserves_inv cfg hEnd hLoop s a hInv)

/-- `jsRound` is monotone. -/
lemma jsRound_mono {x y : ℚ} (h : x ≤ y) : jsRound x ≤ jsRound y :=
  Int.floor_le_floor (by linarith)

/-- `jsRound` of a nonnegative value is nonnegative. -/
lemma jsRound_nonneg {x : ℚ} (h : 0 ≤ x) : 0 ≤ jsRound x :=
  Int.le_floor.mpr (by push_cast; linarith)

/-- `jsRound` never exceeds an integer bound on its argument. -/
lemma jsRound_le_of_le {x : ℚ} {n : ℤ} (h : x ≤ n) : jsRound x ≤ n := by
  have hle : jsRound x ≤ jsRound (n : ℚ) := jsRound_mono h
  have hn : jsRound (n : ℚ) = n := by
    rw [jsRound, add_comm, Int.floor_add_int]
    norm_num
  rw [hn] at hle
  exact hle

/-- Render-phase progress never exceeds 70. -/
lemma renderProgress_le (duration t : ℚ) : renderProgress duration t ≤ 70 :=
  min_le_left _ _

/-- Render-phase progress is nonnegative for nonnegative media time. -/
lemma renderProgress_nonneg {duration t : ℚ} (hdur : 0 < duration) (ht : 0 ≤ t) :
    0 ≤ renderProgress duration t :=
  le_min (by norm_num) (jsRound_nonneg (by positivity))

/-- Render-phase progress is monotone in the media time. -/
lemma renderProgress_mono {duration t1 t2 : ℚ} (hdur : 0 < duration)
    (h : t1 ≤ t2) : renderProgress duration t1 ≤ renderProgress duration t2 :=
  min_le_min le_rfl (jsRound_mono (by gcongr))

/-- Upload-phase progress is at least 70 for nonnegative byte counts. -/
lemma uploadProgress_ge {total loaded : ℚ} (htot : 0 < total) (hl : 0 ≤ loaded) :
    70 ≤ uploadProgress total loaded := by
  have h0 : (0:ℤ) ≤ jsRound (loaded / total * 30) := jsRound_nonneg (by positivity)
  rw [uploadProgress]
  omega

/-- Upload-phase progress is at most 100 while the bytes sent do not
exceed the total. -/
lemma uploadProgress_le {total loaded : ℚ} (htot : 0 < total)
    (hl : loaded ≤ total) : uploadProgress total loaded ≤ 100 := by
  have harg : loaded / total * 30 ≤ (30 : ℤ) := by
    have h1 : loaded / total ≤ 1 := (div_le_one htot).mpr hl
    push_cast
    nlinarith
  have := jsRound_le_of_le harg
  rw [uploadProgress]
  omega

/-- Upload-phase progress is monotone in the bytes sent. -/
lemma uploadProgress_mono {total l1 l2 : ℚ} (htot : 0 < total) (h : l1 ≤ l2) :
    uploadProgress total l1 ≤ uploadProgress total l2 := by
  have hj : jsRound (l1 / total * 30) ≤ jsRound (l2 / total * 30) :=
    jsRound_mono (by gcongr)
  rw [uploadProgress, uploadProgress]
  omega

/-! ## Claim theorems -/

/-- C1: with a trim range active (`trimEnd > 0`), looping disabled and
playback running, every sequence of scheduler ticks whose displayed time
reaches `trimEnd - 0.01` produces exactly one `pauseAt(trimEnd)` call and
exactly one boundary-reached cue signal — no duplicates across repeated
ticks — and the one-shot lock is cleared again on the next play. -/
theorem C1_trim_stop_one_shot (cfg : TickConfig) (hEnd : 0 < cfg.trimEnd)
    (hLoop : cfg.isLooping = false) (v0 v1 : ℚ) (ts : List ℚ)
    (hCross : ∃ d ∈ (runTicks cfg (initialTickState v0) ts).displayTrace,
      cfg.trimEnd - 1/100 ≤ d) :
    (runTicks cfg (initialTickState v0) ts).pauseAtCalls = [cfg.trimEnd] ∧
    (runTicks cfg (initialTickState v0) ts).cueSignals = 1 ∧
    (playStart v1 (runTicks cfg (initialTickState v0) ts)).stopLock = false := by
  have hinv0 : TickInv cfg (initialTickState v0) := by
    constructor
    · intro _
      exact ⟨rfl, rfl, rfl, by simp [initialTickState]⟩
    · intro hcontra
      simp [initialTickState] at hcontra
  have hinv := runTicks_inv cfg hEnd hLoop ts (initialTickState v0) hinv0
  obtain ⟨d, hd, hge⟩ := hCross
  rcases Bool.eq_false_or_eq_true (runTicks cfg (initialTickState v0) ts).stopLock
    with hl | hl
  · obtain ⟨hpause, hcue, -⟩ := hinv.2 hl
    exact ⟨hpause, hcue, rfl⟩
  · exfalso
    have hlt := (hinv.1 hl).2.2.2 d hd
    rw [tickEpsilon] at hlt
    linarith

/-- Witness for C1: trim range `[0, 5]`, looping off, ticks observing
media positions 3 then 5 — one pause at 5, one cue. -/
theorem C1_trim_stop_one_shot_witness :
    (runTicks ⟨0, 5, false⟩ (initialTickState 0) [3, 5]).pauseAtCalls = [(5:ℚ)] ∧
    (runTicks ⟨0, 5, false⟩ (initialTickState 0) [3, 5]).cueSignals = 1 ∧
    (playStart 0 (runTicks ⟨0, 5, false⟩ (initialTickState 0) [3, 5])).stopLock = false :=
  C1_trim_stop_one_shot ⟨0, 5, false⟩ (by norm_num) rfl 0 0 [3, 5]
    ⟨5, by norm_num [runTicks, tick, updatePlayhead, tickEpsilon, initialTickState],
      by norm_num⟩

/-- C2: for every `t` in `[0, duration]` with the duration known,
`pauseAt(t)` immediately republishes exactly `t` and records it as the
forced time; every `seeked` event whose landing position is not within
0.02 s of `t` leaves `t` authoritative (the reported time stays `t`), and
the first converged `seeked` event clears the forced time while keeping
the reported time within 0.02 s of `t`. -/
theorem C2_pauseAt_round_trip (s : PlayerState) (d t : ℚ) (seekOk : Bool)
    (hd : s.duration = some d) (h0 : 0 ≤ t) (h1 : t ≤ d) :
    (pauseAt seekOk t s).currentTime = t ∧
    (pauseAt seekOk t s).forcedTime = some t ∧
    (∀ ps : List ℚ, (∀ p ∈ ps, ¬ |p - t| ≤ 1/50) →
      (runSeeked ps (pauseAt seekOk t s)).currentTime = t ∧
      (runSeeked ps (pauseAt seekOk t s)).forcedTime = some t) ∧
    (∀ ps : List ℚ, ∀ p : ℚ, (∀ q ∈ ps, ¬ |q - t| ≤ 1/50) → |p - t| ≤ 1/50 →
      (handleSeeked p (runSeeked ps (pauseAt seekOk t s))).forcedTime = none ∧
      |(handleSeeked p (runSeeked ps (pauseAt seekOk t s))).currentTime - t| ≤ 1/50) := by
  have hclamp : max 0 (min t d) = t := by
    rw [min_eq_left h1, max_eq_right h0]
  have hcur : (pauseAt seekOk t s).currentTime = t := by
    simp [pauseAt, hd, hclamp]
  have hforced : (pauseAt seekOk t s).forcedTime = some t := by
    simp [pauseAt, hd, hclamp]
  refine ⟨hcur, hforced, ?_, ?_⟩
  · intro ps hps
    have h := runSeeked_not_converged t ps hps _ hforced hcur
    exact ⟨h.2, h.1⟩
  · intro ps p hps hp
    have h := runSeeked_not_converged t ps hps _ hforced hcur
    have hp' : |p - t| ≤ (50:ℚ)⁻¹ := by rwa [← one_div]
    constructor
    · simp [handleSeeked, h.1, hp']
    · have hcp : (handleSeeked p (runSeeked ps (pauseAt seekOk t s))).currentTime = p := by
        simp [handleSeeked, h.1, hp']
      rw [hcp]
      exact hp

/-- Witness for C2 at `t = 4`, `duration = 10`, with one non-converged and
one converged `seeked` event. -/
theorem C2_pauseAt_round_trip_witness :
    (pauseAt true 4 ⟨true, false, some 10, 0, none, 0⟩).currentTime = 4 ∧
    (pauseAt true 4 ⟨true, false, some 10, 0, none, 0⟩).forcedTime = some 4 ∧
    (∀ ps : List ℚ, (∀ p ∈ ps, ¬ |p - 4| ≤ 1/50) →
      (runSeeked ps (pauseAt true 4 ⟨true, false, some 10, 0, none, 0⟩)).currentTime = 4 ∧
      (runSeeked ps (pauseAt true 4 ⟨true, false, some 10, 0, none, 0⟩)).forcedTime = some 4) ∧
    (∀ ps : List ℚ, ∀ p : ℚ, (∀ q ∈ ps, ¬ |q - 4| ≤ 1/50) → |p - 4| ≤ 1/50 →
      (handleSeeked p (runSeeked ps (pauseAt true 4 ⟨true, false, some 10, 0, none, 0⟩))).forcedTime = none ∧
      |(handleSeeked p (runSeeked ps (pauseAt true 4 ⟨true, false, some 10, 0, none, 0⟩))).currentTime - 4| ≤ 1/50) :=
  C2_pauseAt_round_trip ⟨true, false, some 10, 0, none, 0⟩ 10 4 true rfl
    (by norm_num) (by norm_num)

/-- C3: with positive source dimensions, a positive target aspect ratio
yields a crop whose source-crop window realizes the target ratio exactly,
is centered, and is contained in the source bounds; an absent or
non-positive target ratio yields the identity crop (output size equals
source size, crop is the full frame). -/
theorem C3_geometry_resolver (w h : ℚ) (hw : 0 < w) (hh : 0 < h) :
    (∀ r : ℚ, 0 < r →
      (computeOutputSize (some r) w h).sWidth /
          (computeOutputSize (some r) w h).sHeight = r ∧
      (computeOutputSize (some r) w h).sx =
          (w - (computeOutputSize (some r) w h).sWidth) / 2 ∧
      (computeOutputSize (some r) w h).sy =
          (h - (computeOutputSize (some r) w h).sHeight) / 2 ∧
      0 ≤ (computeOutputSize (some r) w h).sx ∧
      0 ≤ (computeOutputSize (some r) w h).sy ∧
      (computeOutputSize (some r) w h).sx +
          (computeOutputSize (some r) w h).sWidth ≤ w ∧
      (computeOutputSize (some r) w h).sy +
          (computeOutputSize (some r) w h).sHeight ≤ h) ∧
    computeOutputSize none w h = ⟨w, h, 0, 0, w, h⟩ ∧
    (∀ r : ℚ, r ≤ 0 → computeOutputSize (some r) w h = ⟨w, h, 0, 0, w, h⟩) := by
  refine ⟨?_, rfl, ?_⟩
  · intro r hr
    have hw' : w ≠ 0 := ne_of_gt hw
    have hh' : h ≠ 0 := ne_of_gt hh
    have hr' : r ≠ 0 := ne_of_gt hr
    by_cases hcase : w / h > r
    · have hwide : h * r < w := by
        rw [gt_iff_lt, lt_div_iff hh] at hcase
        linarith [hcase]
      have hg : computeOutputSize (some r) w h =
          ⟨((jsRound (h * r) : ℤ) : ℚ), ((jsRound h : ℤ) : ℚ),
            max 0 ((w - h * r) / 2), max 0 ((h - h) / 2), h * r, h⟩ := by
        simp [computeOutputSize, not_le.mpr hr, hcase]
      rw [hg]
      have hsx : max (0:ℚ) ((w - h * r) / 2) = (w - h * r) / 2 := by
        rw [max_eq_right]
        linarith
      have hsy : max (0:ℚ) ((h - h) / 2) = (h - h) / 2 := by
        norm_num
      refine ⟨?_, hsx, hsy, ?_, ?_, ?_, ?_⟩
      · field_simp
      · rw [hsx]; linarith
      · rw [hsy]; norm_num
      · rw [hsx]; linarith
      · rw [hsy]; norm_num
    · have htall : w / r ≤ h := by
        rw [gt_iff_lt, not_lt, div_le_iff hh] at hcase
        rw [div_le_iff hr]
        linarith [hcase]
      have hg : computeOutputSize (some r) w h =
          ⟨((jsRound w : ℤ) : ℚ), ((jsRound (w / r) : ℤ) : ℚ),
            max 0 ((w - w) / 2), max 0 ((h - w / r) / 2), w, w / r⟩ := by
        simp [computeOutputSize, not_le.mpr hr, hcase]
      rw [hg]
      have hsx : max (0:ℚ) ((w - w) / 2) = (w - w) / 2 := by norm_num
      have hsy : max (0:ℚ) ((h - w / r) / 2) = (h - w / r) / 2 := by
        rw [max_eq_right]
        linarith
      refine ⟨?_, hsx, hsy, ?_, ?_, ?_, ?_⟩
      · field_simp
      · rw [hsx]; norm_num
      · rw [hsy]; linarith
      · rw [hsx]; norm_num
      · rw [hsy]; linarith
  · intro r hr0
    simp [computeOutputSize, hr0]

/-- Witness for C3 at a 1920×1080 source. -/
theorem C3_geometry_resolver_witness :
    (∀ r : ℚ, 0 < r →
      (computeOutputSize (some r) 1920 1080).sWidth /
          (computeOutputSize (some r) 1920 1080).sHeight = r ∧
      (computeOutputSize (some r) 1920 1080).sx =
          (1920 - (computeOutputSize (some r) 1920 1080).sWidth) / 2 ∧
      (computeOutputSize (some r) 1920 1080).sy =
          (1080 - (computeOutputSize (some r) 1920 1080).sHeight) / 2 ∧
      0 ≤ (computeOutputSize (some r) 1920 1080).sx ∧
      0 ≤ (computeOutputSize (some r) 1920 1080).sy ∧
      (computeOutputSize (some r) 1920 1080).sx +
          (computeOutputSize (some r) 1920 1080).sWidth ≤ 1920 ∧
      (computeOutputSize (some r) 1920 1080).sy +
          (computeOutputSize (some r) 1920 1080).sHeight ≤ 1080) ∧
    computeOutputSize none 1920 1080 = ⟨1920, 1080, 0, 0, 1920, 1080⟩ ∧
    (∀ r : ℚ, r ≤ 0 →
      computeOutputSize (some r) 1920 1080 = ⟨1920, 1080, 0, 0, 1920, 1080⟩) :=
  C3_geometry_resolver 1920 1080 (by norm_num) (by norm_num)

/-- C4 counterexample: export capture forces playback
(`exportCut` runs `scrub(0)` then `togglePlayback()`), so `drawFrame`'s
`isPreview` flag is `true` while recording: at noise slider 1 the applied
noise strength is 8 % of the slider (the preview cap), not the 20 % the
claim asserts for export capture, and likewise grain is 12 % rather than
30 %. -/
theorem C4_effect_strength_regimes_counterexample :
    (exportCaptureStart true ⟨false, true, some 10, 0, none, 0⟩).isPlaying = true ∧
    appliedStrengths (exportCaptureStart true ⟨false, true, some 10, 0, none, 0⟩)
      1 1 1 = (min 1 (1/5), 1 * (2/25), 1 * (3/25)) ∧
    (appliedStrengths (exportCaptureStart true ⟨false, true, some 10, 0, none, 0⟩)
      1 1 1).2.1 ≠ 1 * (1/5) ∧
    (appliedStrengths (exportCaptureStart true ⟨false, true, some 10, 0, none, 0⟩)
      1 1 1).2.2 ≠ 1 * (3/10) := by
  refine ⟨rfl, rfl, ?_, ?_⟩
  · show (1:ℚ) * (2/25) ≠ 1 * (1/5)
    norm_num
  · show (1:ℚ) * (3/25) ≠ 1 * (3/10)
    norm_num

/-- C4 (amended): for identical nonnegative slider inputs, the strengths
applied per frame while actively playing — including during export
capture, which forces playback on — are capped to sharpen ≤ 0.2, noise
8 % of the slider and grain 12 %, while the strengths applied while
paused are capped to sharpen ≤ 0.6, noise 20 % and grain 30 %; the
playing-regime strength never exceeds the paused-regime strength
componentwise, and some input separates the two regimes. -/
theorem C4_effect_strength_regimes_amended (s n g : ℚ)
    (hs : 0 ≤ s) (hn : 0 ≤ n) (hg : 0 ≤ g) :
    (effectStrengths true s n g).1 ≤ 1/5 ∧
    (effectStrengths true s n g).2.1 = n * (2/25) ∧
    (effectStrengths true s n g).2.2 = g * (3/25) ∧
    (effectStrengths false s n g).1 ≤ 3/5 ∧
    (effectStrengths false s n g).2.1 = n * (1/5) ∧
    (effectStrengths false s n g).2.2 = g * (3/10) ∧
    (effectStrengths true s n g).1 ≤ (effectStrengths false s n g).1 ∧
    (effectStrengths true s n g).2.1 ≤ (effectStrengths false s n g).2.1 ∧
    (effectStrengths true s n g).2.2 ≤ (effectStrengths false s n g).2.2 ∧
    (∀ ps : PlayerState, ∀ seekOk : Bool,
      appliedStrengths (exportCaptureStart seekOk ps) s n g =
        effectStrengths true s n g) ∧
    (∀ ps : PlayerState, ps.isPlaying = false →
      appliedStrengths ps s n g = effectStrengths false s n g) ∧
    (∃ sp np gp : ℚ, 0 ≤ sp ∧ 0 ≤ np ∧ 0 ≤ gp ∧
      effectStrengths true sp np gp ≠ effectStrengths false sp np gp) := by
  have hpre : effectStrengths true s n g = (min s (1/5), n * (2/25), g * (3/25)) := by
    simp [effectStrengths]
  have hfull : effectStrengths false s n g = (min s (3/5), n * (1/5), g * (3/10)) := by
    simp [effectStrengths]
  refine ⟨?_, ?_, ?_, ?_, ?_, ?_, ?_, ?_, ?_, ?_, ?_, ?_⟩
  · rw [hpre]; exact min_le_right _ _
  · rw [hpre]
  · rw [hpre]
  · rw [hfull]; exact min_le_right _ _
  · rw [hfull]
  · rw [hfull]
  · rw [hpre, hfull]; exact min_le_min le_rfl (by norm_num)
  · rw [hpre, hfull]; show n * (2/25) ≤ n * (1/5); linarith
  · rw [hpre, hfull]; show g * (3/25) ≤ g * (3/10); linarith
  · intro ps seekOk
    rfl
  · intro ps hps
    rw [appliedStrengths, hps]
  · refine ⟨1, 1, 1, by norm_num, by norm_num, by norm_num, ?_⟩
    intro hcontra
    have h1 : min (1:ℚ) (1/5) = min 1 (3/5) := by
      have h0 := congrArg Prod.fst hcontra
      simpa [effectStrengths] using h0
    rw [min_eq_right (by norm_num : (1:ℚ)/5 ≤ 1),
      min_eq_right (by norm_num : (3:ℚ)/5 ≤ 1)] at h1
    norm_num at h1

/-- Witness for the amended C4 at slider values `s = 1/2`, `n = 1`,
`g = 1`. -/
theorem C4_effect_strength_regimes_amended_witness :
    (effectStrengths true (1/2) 1 1).1 ≤ 1/5 ∧
    (effectStrengths true (1/2) 1 1).2.1 = 1 * (2/25) ∧
    (effectStrengths true (1/2) 1 1).2.2 = 1 * (3/25) ∧
    (effectStrengths false (1/2) 1 1).1 ≤ 3/5 ∧
    (effectStrengths false (1/2) 1 1).2.1 = 1 * (1/5) ∧
    (effectStrengths false (1/2) 1 1).2.2 = 1 * (3/10) ∧
    (effectStrengths true (1/2) 1 1).1 ≤ (effectStrengths false (1/2) 1 1).1 ∧
    (effectStrengths true (1/2) 1 1).2.1 ≤ (effectStrengths false (1/2) 1 1).2.1 ∧
    (effectStrengths true (1/2) 1 1).2.2 ≤ (effectStrengths false (1/2) 1 1).2.2 ∧
    (∀ ps : PlayerState, ∀ seekOk : Bool,
      appliedStrengths (exportCaptureStart seekOk ps) (1/2) 1 1 =
        effectStrengths true (1/2) 1 1) ∧
    (∀ ps : PlayerState, ps.isPlaying = false →
      appliedStrengths ps (1/2) 1 1 = effectStrengths false (1/2) 1 1) ∧
    (∃ sp np gp : ℚ, 0 ≤ sp ∧ 0 ≤ np ∧ 0 ≤ gp ∧
      effectStrengths true sp np gp ≠ effectStrengths false sp np gp) :=
  C4_effect_strength_regimes_amended (1/2) 1 1 (by norm_num) (by norm_num)
    (by norm_num)

/-- C5: for a non-empty ordered clip list, each derived start is the sum
of the durations of the earlier clips and each derived duration is
`outPoint - inPoint`; `sequenceDuration` is the sum of all clip durations;
the global-time mapping is total on `[0, sequenceDuration)` (each such `t`
lands in the clip whose `[start, start + duration)` window contains it),
falls back to the last clip for `t ≥ sequenceDuration`, and the mapped
clip index is monotone in `t`. -/
theorem C5_sequence_timing (cs : List Clip) (hne : cs ≠ [])
    (hio : ∀ c ∈ cs, c.inPoint ≤ c.outPoint) :
    (∀ i : ℕ, ∀ h : i < cs.length,
      (sequenceWithTiming cs)[i]? = some
        (TimedClip.mk cs[i]
          (((cs.take i).map (fun c => c.outPoint - c.inPoint)).sum)
          (cs[i].outPoint - cs[i].inPoint))) ∧
    sequenceDuration cs = (cs.map (fun c => c.outPoint - c.inPoint)).sum ∧
    (∀ t : ℚ, 0 ≤ t → t < sequenceDuration cs →
      ∃ tc, getClipAtTime cs t = some tc ∧
        tc.start ≤ t ∧ t < tc.start + tc.duration) ∧
    (∀ t : ℚ, sequenceDuration cs ≤ t →
      getClipAtTime cs t = (sequenceWithTiming cs).getLast?) ∧
    (∀ t1 t2 : ℚ, t1 ≤ t2 → clipIndexAtTime cs t1 ≤ clipIndexAtTime cs t2) := by
  have hdurs : ∀ x ∈ cs.map clipDur, (0:ℚ) ≤ x := by
    intro x hx
    obtain ⟨c, -, rfl⟩ := List.mem_map.mp hx
    exact clipDur_nonneg c
  have hmapeq : ∀ l : List Clip, l ⊆ cs →
      l.map clipDur = l.map (fun c => c.outPoint - c.inPoint) := by
    intro l hl
    refine List.map_congr_left ?_
    intro c hc
    exact clipDur_of_le c (hio c (hl hc))
  have hseq : sequenceDuration cs = (cs.map clipDur).sum := sequenceDuration_eq_sum cs
  have hseqnn : 0 ≤ sequenceDuration cs := by
    rw [hseq]
    exact List.sum_nonneg hdurs
  have hnil := sequenceWithTiming_ne_nil cs hne
  refine ⟨?_, ?_, ?_, ?_, ?_⟩
  · intro i h
    have h? := withTiming_getElem? 0 cs i
    rw [List.getElem?_eq_getElem h] at h?
    show (withTiming 0 cs)[i]? = _
    rw [h?]
    have htake : (cs.take i).map clipDur =
        (cs.take i).map (fun c => c.outPoint - c.inPoint) :=
      hmapeq (cs.take i) (List.take_subset i cs)
    have hdur : clipDur cs[i] = cs[i].outPoint - cs[i].inPoint :=
      clipDur_of_le _ (hio _ (List.getElem_mem h))
    rw [Option.map_some', htake, hdur, zero_add]
  · rw [hseq, hmapeq cs (fun _ hx => hx)]
  · intro t h0 hlt
    have hsafe : max 0 t = t := max_eq_right h0
    rw [hseq] at hlt
    obtain ⟨tc, hfind, hclo, hchi⟩ :=
      withTiming_find_some t 0 cs h0 (by rw [zero_add]; exact hlt)
    refine ⟨tc, ?_, hclo, hchi⟩
    rw [getClipAtTime_eq, if_neg (by simp [hnil]), hsafe]
    show ((withTiming 0 cs).find? (containsTime t)).orElse _ = _
    rw [hfind]
    rfl
  · intro t hge
    have h0 : 0 ≤ t := le_trans hseqnn hge
    have hsafe : max 0 t = t := max_eq_right h0
    have hnone : (withTiming 0 cs).find? (containsTime t) = none := by
      refine withTiming_find_none t 0 cs ?_
      rw [zero_add, ← hseq]
      exact hge
    rw [getClipAtTime_eq, if_neg (by simp [hnil]), hsafe]
    show ((withTiming 0 cs).find? (containsTime t)).orElse _ = _
    rw [hnone]
    rfl
  · intro t1 t2 h12
    rw [clipIndexAtTime_eq, clipIndexAtTime_eq]
    have hs1 : (0:ℚ) ≤ max 0 t1 := le_max_left 0 t1
    have hs12 : max 0 t1 ≤ max 0 t2 := max_le_max le_rfl h12
    by_cases h1 : (sequenceWithTiming cs).findIdx (containsTime (max 0 t1)) <
        (sequenceWithTiming cs).length
    · by_cases h2 : (sequenceWithTiming cs).findIdx (containsTime (max 0 t2)) <
          (sequenceWithTiming cs).length
      · rw [if_pos h1, if_pos h2]
        by_contra hcon
        push_neg at hcon
        have hlen : (sequenceWithTiming cs).length = cs.length := by
          show (withTiming 0 cs).length = cs.length
          exact withTiming_length 0 cs
        set k1 := (sequenceWithTiming cs).findIdx (containsTime (max 0 t1)) with hk1
        set k2 := (sequenceWithTiming cs).findIdx (containsTime (max 0 t2)) with hk2
        have hfind1 := find?_eq_getElem_of_findIdx_lt _ (containsTime (max 0 t1)) h1
        have hfind2 := find?_eq_getElem_of_findIdx_lt _ (containsTime (max 0 t2)) h2
        have hp1 := (containsTime_iff _ _).mp (List.find?_some hfind1)
        have hp2 := (containsTime_iff _ _).mp (List.find?_some hfind2)
        have hk2lt : k2 < (sequenceWithTiming cs).length := h2
        have hk2cs : k2 < cs.length := by rw [← hlen]; exact hk2lt
        have hk1cs : k1 < cs.length := by rw [← hlen]; exact h1
        have hnot1 := List.not_of_lt_findIdx hcon
        have hnot1' : ¬ ((sequenceWithTiming cs)[k2].start ≤ max 0 t1 ∧
            max 0 t1 < (sequenceWithTiming cs)[k2].start +
              (sequenceWithTiming cs)[k2].duration) := by
          intro hcontra
          have := (containsTime_iff (max 0 t1) (sequenceWithTiming cs)[k2]).mpr hcontra
          rw [hnot1] at this
          exact Bool.false_ne_true this
        have hlt1in2 : max 0 t1 <
            (sequenceWithTiming cs)[k2].start +
              (sequenceWithTiming cs)[k2].duration :=
          lt_of_le_of_lt hs12 hp2.2
        have hs1lt : max 0 t1 < (sequenceWithTiming cs)[k2].start := by
          by_contra hge2
          push_neg at hge2
          exact hnot1' ⟨hge2, hlt1in2⟩
        have hstart2 := sequence_start_eq cs k2 hk2cs hk2lt
        have hstart1 := sequence_start_eq cs k1 hk1cs h1
        have hmono := take_sum_mono (cs.map clipDur) hdurs k2 k1 (le_of_lt hcon)
        have hle1 : (sequenceWithTiming cs)[k1].start ≤ max 0 t1 := hp1.1
        rw [hstart1] at hle1
        rw [hstart2] at hs1lt
        linarith
      · rw [if_pos h1, if_neg h2]
        exact Nat.le_pred_of_lt h1
    · have hs1big : (cs.map clipDur).sum ≤ max 0 t1 := by
        by_contra hlt
        push_neg at hlt
        exact h1 (findIdx_lt_of_lt_duration cs (max 0 t1) hs1 hlt)
      have h2none : ¬ (sequenceWithTiming cs).findIdx (containsTime (max 0 t2)) <
          (sequenceWithTiming cs).length := by
        intro h2
        have hfind2 := find?_eq_getElem_of_findIdx_lt _ (containsTime (max 0 t2)) h2
        have hnone : (withTiming 0 cs).find? (containsTime (max 0 t2)) = none := by
          refine withTiming_find_none (max 0 t2) 0 cs ?_
          rw [zero_add]
          exact le_trans hs1big hs12
        have : (sequenceWithTiming cs).find? (containsTime (max 0 t2)) = none := hnone
        rw [this] at hfind2
        exact Option.noConfusion hfind2
      rw [if_neg h1, if_neg h2none]

/-- Witness for C5 on a two-clip sequence (trims `[1, 3]` and `[0, 2]`). -/
theorem C5_sequence_timing_witness :
    (∀ i : ℕ, ∀ h : i < ([⟨0, 1, 3⟩, ⟨1, 0, 2⟩] : List Clip).length,
      (sequenceWithTiming [⟨0, 1, 3⟩, ⟨1, 0, 2⟩])[i]? = some
        (TimedClip.mk ([⟨0, 1, 3⟩, ⟨1, 0, 2⟩] : List Clip)[i]
          (((([⟨0, 1, 3⟩, ⟨1, 0, 2⟩] : List Clip).take i).map
            (fun c => c.outPoint - c.inPoint)).sum)
          (([⟨0, 1, 3⟩, ⟨1, 0, 2⟩] : List Clip)[i].outPoint -
            ([⟨0, 1, 3⟩, ⟨1, 0, 2⟩] : List Clip)[i].inPoint))) ∧
    sequenceDuration [⟨0, 1, 3⟩, ⟨1, 0, 2⟩] =
      (([⟨0, 1, 3⟩, ⟨1, 0, 2⟩] : List Clip).map
        (fun c => c.outPoint - c.inPoint)).sum ∧
    (∀ t : ℚ, 0 ≤ t → t < sequenceDuration [⟨0, 1, 3⟩, ⟨1, 0, 2⟩] →
      ∃ tc, getClipAtTime [⟨0, 1, 3⟩, ⟨1, 0, 2⟩] t = some tc ∧
        tc.start ≤ t ∧ t < tc.start + tc.duration) ∧
    (∀ t : ℚ, sequenceDuration [⟨0, 1, 3⟩, ⟨1, 0, 2⟩] ≤ t →
      getClipAtTime [⟨0, 1, 3⟩, ⟨1, 0, 2⟩] t =
        (sequenceWithTiming [⟨0, 1, 3⟩, ⟨1, 0, 2⟩]).getLast?) ∧
    (∀ t1 t2 : ℚ, t1 ≤ t2 →
      clipIndexAtTime [⟨0, 1, 3⟩, ⟨1, 0, 2⟩] t1 ≤
        clipIndexAtTime [⟨0, 1, 3⟩, ⟨1, 0, 2⟩] t2) :=
  C5_sequence_timing [⟨0, 1, 3⟩, ⟨1, 0, 2⟩] (by simp)
    (by
      intro c hc
      rcases List.mem_cons.mp hc with h | h
      · rw [h]; norm_num
      · rcases List.mem_cons.mp h with h' | h'
        · rw [h']; norm_num
        · simp at h')

/-- C6: splitting the clip under the playhead at an interior offset
`o = t - start` with `0.1 < o < duration - 0.1` replaces it in place by
two clips that partition its trim range exactly — the first keeps the
original `inPoint` and gets `outPoint = inPoint + o`, the second gets
`inPoint = inPoint + o` and keeps the original `outPoint`; an offset
outside that margin leaves the clip list unchanged. -/
theorem C6_split_clip (cs : List Clip) (target : TimedClip) (f1 f2 : ℕ) (t : ℚ)
    (hids : (cs.map Clip.id).Nodup)
    (hfound : getClipAtTime cs t = some target) :
    ((1/10 < t - target.start ∧ t - target.start < target.duration - 1/10) →
      ∃ i : ℕ, ∃ hi : i < cs.length, cs[i] = target.clip ∧
        handleSplitClip f1 f2 cs t =
          cs.take i ++
            [Clip.mk f1 target.clip.inPoint (target.clip.inPoint + (t - target.start)),
             Clip.mk f2 (target.clip.inPoint + (t - target.start)) target.clip.outPoint] ++
            cs.drop (i + 1)) ∧
    ((t - target.start ≤ 1/10 ∨ target.duration - 1/10 ≤ t - target.start) →
      handleSplitClip f1 f2 cs t = cs) := by
  have hne : (sequenceWithTiming cs).isEmpty = false := by
    by_cases he : (sequenceWithTiming cs).isEmpty = true
    · rw [getClipAtTime_eq, if_pos he] at hfound
      exact Option.noConfusion hfound
    · simpa using he
  have hsplit : handleSplitClip f1 f2 cs t =
      (if target.duration = 0 then cs
       else if t - target.start ≤ 1/10 ∨ t - target.start ≥ target.duration - 1/10 then cs
       else
         match cs.findIdx? (fun c => c.id == target.clip.id) with
         | none => cs
         | some index =>
           cs.take index ++
             [{ target.clip with
                  id := f1
                  outPoint := target.clip.inPoint + (t - target.start) },
              { target.clip with
                  id := f2
                  inPoint := target.clip.inPoint + (t - target.start) }] ++
             cs.drop (index + 1)) := by
    unfold handleSplitClip
    rw [if_neg (by simp [hne]), hfound]
  refine ⟨?_, ?_⟩
  · rintro ⟨h1, h2⟩
    have hmem : target.clip ∈ cs := getClipAtTime_some_clip_mem cs t target hfound
    obtain ⟨i, hi, heq, hfind⟩ := findIdx_id_of_nodup cs target.clip hids hmem
    refine ⟨i, hi, heq, ?_⟩
    rw [hsplit, if_neg (by intro h0; rw [h0] at h2; linarith),
      if_neg (by push_neg; exact ⟨h1, h2⟩), hfind]
  · intro hout
    rw [hsplit]
    by_cases h0 : target.duration = 0
    · rw [if_pos h0]
    · rw [if_neg h0, if_pos hout]

/-- Witness for C6: a single clip with trim `[0, 4]` split at playhead 2
becomes two clips partitioned at 2. -/
theorem C6_split_clip_witness :
    ∃ i : ℕ, ∃ hi : i < ([⟨7, 0, 4⟩] : List Clip).length,
      ([⟨7, 0, 4⟩] : List Clip)[i] = ⟨7, 0, 4⟩ ∧
      handleSplitClip 1 2 [⟨7, 0, 4⟩] 2 =
        ([⟨7, 0, 4⟩] : List Clip).take i ++
          [Clip.mk 1 0 (0 + (2 - 0)), Clip.mk 2 (0 + (2 - 0)) 4] ++
          ([⟨7, 0, 4⟩] : List Clip).drop (i + 1) := by
  have htimed : sequenceWithTiming [⟨7, 0, 4⟩] = [⟨⟨7, 0, 4⟩, 0, 4⟩] := by
    norm_num [sequenceWithTiming, withTiming, clipDur]
  have hcontain : containsTime (max 0 2) (⟨⟨7, 0, 4⟩, 0, 4⟩ : TimedClip) = true := by
    rw [containsTime_iff]
    norm_num
  have hfound : getClipAtTime [⟨7, 0, 4⟩] 2 = some ⟨⟨7, 0, 4⟩, 0, 4⟩ := by
    rw [getClipAtTime_eq, htimed, if_neg (by simp),
      List.find?_cons_of_pos _ hcontain]
    rfl
  exact (C6_split_clip [⟨7, 0, 4⟩] ⟨⟨7, 0, 4⟩, 0, 4⟩ 1 2 2 (by simp) hfound).1
    (by norm_num)

/-- C7: over one successful export run — media times consumed in
non-decreasing order during capture, then bytes sent in non-decreasing
order during upload — the published progress sequence is monotonically
non-decreasing, stays within `[0, 100]`, stays at most 70 during the
render-capture phase, stays within `[70, 100]` during the upload phase,
ends at exactly 100, and the deferred display reset publishes `idle`/0. -/
theorem C7_export_progress (dur total : ℚ) (times loads : List ℚ)
    (hdur : 0 < dur) (htot : 0 < total)
    (htimes0 : ∀ x ∈ times, 0 ≤ x) (htimes : List.Chain' (· ≤ ·) times)
    (hloads0 : ∀ x ∈ loads, 0 ≤ x ∧ x ≤ total)
    (hloads : List.Chain' (· ≤ ·) loads) :
    List.Chain' (· ≤ ·) (exportProgressTrace dur total times loads) ∧
    (∀ x ∈ exportProgressTrace dur total times loads, 0 ≤ x ∧ x ≤ 100) ∧
    (∀ x ∈ times.map (renderProgress dur), x ≤ 70) ∧
    (∀ x ∈ loads.map (uploadProgress total), 70 ≤ x ∧ x ≤ 100) ∧
    (exportProgressTrace dur total times loads).getLast? = some 100 ∧
    (∀ r : ExportRun, (exportDisplayReset r).state = ⟨.idle, 0, none⟩) := by
  have hrender : ∀ x ∈ times.map (renderProgress dur), 0 ≤ x ∧ x ≤ 70 := by
    intro x hx
    obtain ⟨t, ht, rfl⟩ := List.mem_map.mp hx
    exact ⟨renderProgress_nonneg hdur (htimes0 t ht), renderProgress_le dur t⟩
  have hupload : ∀ x ∈ loads.map (uploadProgress total), 70 ≤ x ∧ x ≤ 100 := by
    intro x hx
    obtain ⟨l, hl, rfl⟩ := List.mem_map.mp hx
    exact ⟨uploadProgress_ge htot (hloads0 l hl).1,
      uploadProgress_le htot (hloads0 l hl).2⟩
  have hchainA : List.Chain' (· ≤ ·) (0 :: times.map (renderProgress dur)) := by
    rw [List.chain'_cons']
    constructor
    · intro y hy
      exact (hrender y (List.mem_of_mem_head? hy)).1
    · exact List.chain'_map_of_chain' _ (fun a b h => renderProgress_mono hdur h) htimes
  have hchainB : List.Chain' (· ≤ ·)
      (70 :: (loads.map (uploadProgress total) ++ [100])) := by
    rw [List.chain'_cons']
    constructor
    · intro y hy
      rcases List.mem_append.mp (List.mem_of_mem_head? hy) with hy' | hy'
      · exact (hupload y hy').1
      · rw [List.mem_singleton.mp hy']
        norm_num
    · rw [List.chain'_append]
      refine ⟨List.chain'_map_of_chain' _
          (fun a b h => uploadProgress_mono htot h) hloads,
        List.chain'_singleton 100, ?_⟩
      intro x hx y hy
      rw [List.mem_singleton.mp (List.mem_of_mem_head? hy)]
      exact (hupload x (List.mem_of_getLast?_eq_some hx)).2
  have hchain : List.Chain' (· ≤ ·) (exportProgressTrace dur total times loads) := by
    rw [exportProgressTrace, List.chain'_append]
    refine ⟨hchainA, hchainB, ?_⟩
    intro x hx y hy
    have hy70 : y = 70 := by
      have := hy
      simp at this
      omega
    rcases List.mem_cons.mp (List.mem_of_getLast?_eq_some hx) with hx' | hx'
    · rw [hx', hy70]
      norm_num
    · rw [hy70]
      exact (hrender x hx').2
  refine ⟨hchain, ?_, fun x hx => (hrender x hx).2, hupload, ?_, fun r => rfl⟩
  · intro x hx
    rw [exportProgressTrace] at hx
    rcases List.mem_append.mp hx with hx | hx
    · rcases List.mem_cons.mp hx with hx | hx
      · rw [hx]
        norm_num
      · have := hrender x hx
        omega
    · rcases List.mem_cons.mp hx with hx | hx
      · rw [hx]
        norm_num
      · rcases List.mem_append.mp hx with hx | hx
        · have := hupload x hx
          omega
        · rw [List.mem_singleton.mp hx]
          norm_num
  · rw [exportProgressTrace]
    rw [show (0 :: times.map (renderProgress dur)) ++
        (70 :: (loads.map (uploadProgress total) ++ [100])) =
        ((0 :: times.map (renderProgress dur)) ++
          (70 :: loads.map (uploadProgress total))) ++ [100] by simp]
    exact List.getLast?_concat _

/-- Witness for C7 on a concrete run: duration 10 s, capture times
2/5/10, upload of 100 bytes observed at 40 then 100. -/
theorem C7_export_progress_witness :
    List.Chain' (· ≤ ·) (exportProgressTrace 10 100 [2, 5, 10] [40, 100]) ∧
    (∀ x ∈ exportProgressTrace 10 100 [2, 5, 10] [40, 100], 0 ≤ x ∧ x ≤ 100) ∧
    (∀ x ∈ ([2, 5, 10] : List ℚ).map (renderProgress 10), x ≤ 70) ∧
    (∀ x ∈ ([40, 100] : List ℚ).map (uploadProgress 100), 70 ≤ x ∧ x ≤ 100) ∧
    (exportProgressTrace 10 100 [2, 5, 10] [40, 100]).getLast? = some 100 ∧
    (∀ r : ExportRun, (exportDisplayReset r).state = ⟨.idle, 0, none⟩) :=
  C7_export_progress 10 100 [2, 5, 10] [40, 100] (by norm_num) (by norm_num)
    (by
      intro x hx
      fin_cases hx <;> norm_num)
    (by norm_num [List.chain'_cons, List.chain'_singleton])
    (by
      intro x hx
      fin_cases hx <;> norm_num)
    (by norm_num [List.chain'_cons, List.chain'_singleton])

/-- C8 counterexample: an export started while playing at position 3,
whose media has advanced to position 7 when the recorder errors, ends in
the `error` state with a message but with playback NOT restored: the
`recorder.onerror` handler never rewinds to the remembered resume
position (7 ≠ 3), unlike `handleStop`'s `finally` block. -/
theorem C8_export_cleanup_counterexample :
    (onRecorderError (mediaAdvance 7 (startExport ⟨3, true⟩))).state.status =
      ExportStatus.error ∧
    (onRecorderError (mediaAdvance 7 (startExport ⟨3, true⟩))).state.message.isSome =
      true ∧
    (onRecorderError (mediaAdvance 7 (startExport ⟨3, true⟩))).resumeTime = 3 ∧
    (onRecorderError (mediaAdvance 7 (startExport ⟨3, true⟩))).playback.position = 7 ∧
    (onRecorderError (mediaAdvance 7 (startExport ⟨3, true⟩))).playback.position ≠
      (onRecorderError (mediaAdvance 7 (startExport ⟨3, true⟩))).resumeTime :=
  ⟨rfl, rfl, rfl, rfl, by norm_num [onRecorderError, mediaAdvance, startExport]⟩

/-- C8 (amended): failures reaching `handleStop` (signing or upload) and
successful completions always report the claimed terminal state and
restore playback to the pre-export resume position and play state in the
`finally` block; a recorder error reports `error` with a message but its
handler performs no playback restore. -/
theorem C8_export_cleanup_amended (r : ExportRun) (msg : String) :
    (handleStopFailure msg r).state.status = ExportStatus.error ∧
    (handleStopFailure msg r).state.progress = 0 ∧
    (handleStopFailure msg r).state.message = some msg ∧
    (handleStopFailure msg r).playback = ⟨r.resumeTime, r.wasPlaying⟩ ∧
    (handleStopSuccess r).state.status = ExportStatus.done ∧
    (handleStopSuccess r).state.progress = 100 ∧
    (handleStopSuccess r).playback = ⟨r.resumeTime, r.wasPlaying⟩ ∧
    (onRecorderError r).state.status = ExportStatus.error ∧
    (onRecorderError r).state.message.isSome = true ∧
    (onRecorderError r).playback = r.playback :=
  ⟨rfl, rfl, rfl, rfl, rfl, rfl, rfl, rfl, rfl, rfl⟩

/-- C9: `scrub(t)` clears the forced time, seeks the media directly to `t`
without touching the play state, and immediately republishes `t`; when the
seek throws (media not yet seekable) the value is recorded as the forced
time (still republished as `t`), and the `loadedmetadata` handler applies
this stored intent once the source is ready. -/
theorem C9_scrub_error_handling (t : ℚ) (s : PlayerState) (dur : Option ℚ) :
    (scrub true t s).forcedTime = none ∧
    (scrub true t s).videoTime = t ∧
    (scrub true t s).currentTime = t ∧
    (scrub true t s).isPlaying = s.isPlaying ∧
    (scrub true t s).videoPaused = s.videoPaused ∧
    (scrub false t s).forcedTime = some t ∧
    (scrub false t s).currentTime = t ∧
    (scrub false t s).videoTime = s.videoTime ∧
    (scrub false t s).isPlaying = s.isPlaying ∧
    (scrub false t s).videoPaused = s.videoPaused ∧
    (handleLoadedMetadata dur (scrub false t s)).currentTime = t ∧
    (handleLoadedMetadata dur (scrub false t s)).videoTime = t ∧
    (handleLoadedMetadata dur (scrub false t s)).forcedTime = none := by
  simp [scrub, handleLoadedMetadata]

/-- C10: while the media duration is not yet finite, `pauseAt(t)` clamps
only from below: the forced time and the republished current time are
`max 0 t`, with no upper clamp. -/
theorem C10_pauseAt_unknown_duration (t : ℚ) (seekOk : Bool) (s : PlayerState)
    (hd : s.duration = none) :
    (pauseAt seekOk t s).forcedTime = some (max 0 t) ∧
    (pauseAt seekOk t s).currentTime = max 0 t := by
  simp [pauseAt, hd]

/-- Witness for C10 at `t = 42` on a metadata-less player (so the reported
time 42 may exceed any eventual duration). -/
theorem C10_pauseAt_unknown_duration_witness :
    (pauseAt true 42 ⟨false, true, none, 0, none, 0⟩).forcedTime = some (max 0 42) ∧
    (pauseAt true 42 ⟨false, true, none, 0, none, 0⟩).currentTime = max 0 42 :=
  C10_pauseAt_unknown_duration 42 true ⟨false, true, none, 0, none, 0⟩ rfl

end CloudCut
